import Mathlib

set_option maxRecDepth 8192

/-!
Verification of the DHT11 single-wire protocol decoder (`dht11_takemoto_pigpio.py`).

The decoding pipeline of `DHT11.read` is embedded shallowly:

* raw line samples are modelled as natural numbers (the GPIO backend returns
  0 or 1, and the parser only ever compares a sample against the literals
  0 and 1, so nothing is lost by allowing arbitrary naturals);
* `__parse_data_pull_up_lengths` becomes a fold of a step function over the
  sample list, with the state record holding the integer state code
  (the source uses the integer codes 1..5), the running duration counter and
  the output list;
* `__calculate_bits` computes its threshold with Python float division;
  the division `(longest - shortest) / 2` acts on sample-count integers and
  is modelled exactly by rational arithmetic;
* `__bits_to_bytes` becomes a tail-recursive loop over the bit list carrying
  the loop index, the accumulator and the flushed bytes (`byte_d << 1 | bit`
  is written as `2 * byte_d + bit`);
* `__calculate_checksum` keeps the `& 0xff` masks of the source and, exactly
  as in the source, does **not** truncate the final sum;
* the tail of `read` (checksum comparison and reading construction) is
  `validateStage`, and `readDecode` chains parser, bit decoder, byte packer
  and validation, returning `Except` instead of raising.

Definitions named `listMin`, `listMax`, `halfwaySpec`, `pack8` and
`packBytesSpec` are specification-side restatements used to compare the code
with the natural-language specification.
-/

namespace DHT11

/-- Error kinds raised by `DHT11.read`: `DHT11MissingDataError` and
`DHT11CRCError`. -/
inductive DHTError where
  | missingData
  | crc
deriving DecidableEq

/-- The triple returned by a successful `DHT11.read`:
`(temperature, humidity, checksum)`.  Python floats produced by
`b + float(b') / 10` are modelled as rationals. -/
structure Reading where
  temperature : ℚ
  humidity : ℚ
  checksum : Nat
deriving DecidableEq

/-- State code `STATE_INIT_PULL_DOWN = 1` of `__parse_data_pull_up_lengths`. -/
def STATE_INIT_PULL_DOWN : Nat := 1

/-- State code `STATE_INIT_PULL_UP = 2` of `__parse_data_pull_up_lengths`. -/
def STATE_INIT_PULL_UP : Nat := 2

/-- State code `STATE_DATA_FIRST_PULL_DOWN = 3` of
`__parse_data_pull_up_lengths`. -/
def STATE_DATA_FIRST_PULL_DOWN : Nat := 3

/-- State code `STATE_DATA_PULL_UP = 4` of `__parse_data_pull_up_lengths`. -/
def STATE_DATA_PULL_UP : Nat := 4

/-- State code `STATE_DATA_PULL_DOWN = 5` of `__parse_data_pull_up_lengths`. -/
def STATE_DATA_PULL_DOWN : Nat := 5

/-- The loop state of `__parse_data_pull_up_lengths`: the current state code,
the `current_length` duration counter and the `lengths` output list. -/
structure ParseState where
  state : Nat
  current_length : Nat
  lengths : List Nat
deriving DecidableEq

/-- One iteration of the loop body of `__parse_data_pull_up_lengths` on the
sample `current`.  `current_length` is incremented unconditionally at the top
of the loop; every branch of the `if` chain ends in `continue`, so the chain
acts as an `elif` chain. -/
def parseStep (s : ParseState) (current : Nat) : ParseState :=
  let current_length := s.current_length + 1
  if s.state = STATE_INIT_PULL_DOWN then
    if current = 0 then ⟨STATE_INIT_PULL_UP, current_length, s.lengths⟩
    else ⟨s.state, current_length, s.lengths⟩
  else if s.state = STATE_INIT_PULL_UP then
    if current = 1 then ⟨STATE_DATA_FIRST_PULL_DOWN, current_length, s.lengths⟩
    else ⟨s.state, current_length, s.lengths⟩
  else if s.state = STATE_DATA_FIRST_PULL_DOWN then
    if current = 0 then ⟨STATE_DATA_PULL_UP, current_length, s.lengths⟩
    else ⟨s.state, current_length, s.lengths⟩
  else if s.state = STATE_DATA_PULL_UP then
    if current = 1 then ⟨STATE_DATA_PULL_DOWN, 0, s.lengths⟩
    else ⟨s.state, current_length, s.lengths⟩
  else if s.state = STATE_DATA_PULL_DOWN then
    if current = 0 then ⟨STATE_DATA_PULL_UP, current_length, s.lengths ++ [current_length]⟩
    else ⟨s.state, current_length, s.lengths⟩
  else ⟨s.state, current_length, s.lengths⟩

/-- Run of the loop of `__parse_data_pull_up_lengths` over a sample list from
an arbitrary loop state. -/
def parseRun (s : ParseState) (data : List Nat) : ParseState :=
  data.foldl parseStep s

/-- The initial loop state of `__parse_data_pull_up_lengths`:
`state = STATE_INIT_PULL_DOWN`, `lengths = []`, `current_length = 0`. -/
def initParseState : ParseState := ⟨STATE_INIT_PULL_DOWN, 0, []⟩

/-- `DHT11.__parse_data_pull_up_lengths`: run the state machine over the
captured samples and return the collected `lengths`. -/
def parse_data_pull_up_lengths (data : List Nat) : List Nat :=
  (parseRun initParseState data).lengths

/-- The first loop of `DHT11.__calculate_bits`: the running pair
`(shortest_pull_up, longest_pull_up)`, starting from `(1000, 0)`. -/
def shortest_longest (pull_up_lengths : List Nat) : Nat × Nat :=
  pull_up_lengths.foldl
    (fun p length => (if length < p.1 then length else p.1, if p.2 < length then length else p.2))
    (1000, 0)

/-- The threshold `halfway = shortest_pull_up + (longest_pull_up - shortest_pull_up) / 2`
of `DHT11.__calculate_bits`; Python true division is modelled in `ℚ`. -/
def halfway (pull_up_lengths : List Nat) : ℚ :=
  ((shortest_longest pull_up_lengths).1 : ℚ) +
    (((shortest_longest pull_up_lengths).2 : ℚ) - ((shortest_longest pull_up_lengths).1 : ℚ)) / 2

/-- The second loop of `DHT11.__calculate_bits`: a bit is `true` exactly when
its pulse length is strictly greater than `halfway`. -/
def calculate_bits (pull_up_lengths : List Nat) : List Bool :=
  pull_up_lengths.map (fun (length : Nat) => decide (halfway pull_up_lengths < (length : ℚ)))

/-- The loop of `DHT11.__bits_to_bytes` as a tail recursion: `i` is the loop
index, `byte_d` the accumulator (`byte_d << 1 | bit` is `2 * byte_d + bit`),
`bytes` the flushed output. -/
def bitsToBytesGo (i : Nat) (byte_d : Nat) (bytes : List Nat) : List Bool → List Nat
  | [] => bytes
  | b :: rest =>
    let byte_d2 := 2 * byte_d + (if b then 1 else 0)
    if (i + 1) % 8 = 0 then bitsToBytesGo (i + 1) 0 (bytes ++ [byte_d2]) rest
    else bitsToBytesGo (i + 1) byte_d2 bytes rest

/-- `DHT11.__bits_to_bytes`. -/
def bits_to_bytes (bit_list0 : List Bool) : List Nat :=
  bitsToBytesGo 0 0 [] bit_list0

/-- `DHT11.__calculate_checksum`: the masked bytes are summed and the result
is returned **without** a final `& 0xff` truncation, exactly as in the
source. -/
def calculate_checksum (bytes0 : List Nat) : Nat :=
  (bytes0[0]! &&& 0xff) + (bytes0[1]! &&& 0xff) + (bytes0[2]! &&& 0xff) + (bytes0[3]! &&& 0xff)

/-- The tail of `DHT11.read` from the checksum comparison on: raise
`DHT11CRCError` when `the_bytes[4] != checksum`, otherwise build the
reading. -/
def validateStage (the_bytes : List Nat) : Except DHTError Reading :=
  let checksum := calculate_checksum the_bytes
  if the_bytes[4]! ≠ checksum then Except.error DHTError.crc
  else Except.ok ⟨(the_bytes[2]! : ℚ) + (the_bytes[3]! : ℚ) / 10,
    (the_bytes[0]! : ℚ) + (the_bytes[1]! : ℚ) / 10, checksum⟩

/-- The decode path of `DHT11.read` after `__collect_input`: parse the
samples, require exactly 40 pulse lengths (else `DHT11MissingDataError`),
threshold into bits, pack into bytes and validate the checksum. -/
def readDecode (data : List Nat) : Except DHTError Reading :=
  let pull_up_lengths := parse_data_pull_up_lengths data
  if pull_up_lengths.length ≠ 40 then Except.error DHTError.missingData
  else
    let bits := calculate_bits pull_up_lengths
    let the_bytes := bits_to_bytes bits
    validateStage the_bytes

/-- Specification-side minimum of a list of naturals (`min(lengths)`). -/
def listMin : List Nat → Nat
  | [] => 0
  | x :: xs => xs.foldl min x

/-- Specification-side maximum of a list of naturals (`max(lengths)`). -/
def listMax : List Nat → Nat
  | [] => 0
  | x :: xs => xs.foldl max x

/-- Specification-side threshold
`halfway = min(lengths) + (max(lengths) - min(lengths)) / 2`. -/
def halfwaySpec (L : List Nat) : ℚ :=
  (listMin L : ℚ) + ((listMax L : ℚ) - (listMin L : ℚ)) / 2

/-- Specification-side MSB-first packing of 8 bits into one byte. -/
def pack8 (b0 b1 b2 b3 b4 b5 b6 b7 : Bool) : Nat :=
  128 * (if b0 then 1 else 0) + 64 * (if b1 then 1 else 0) + 32 * (if b2 then 1 else 0) +
    16 * (if b3 then 1 else 0) + 8 * (if b4 then 1 else 0) + 4 * (if b5 then 1 else 0) +
    2 * (if b6 then 1 else 0) + (if b7 then 1 else 0)

/-- Specification-side byte packer: chunk the bit list into groups of 8 and
pack each group MSB first; a trailing group of fewer than 8 bits is
dropped. -/
def packBytesSpec : List Bool → List Nat
  | b0 :: b1 :: b2 :: b3 :: b4 :: b5 :: b6 :: b7 :: rest =>
      pack8 b0 b1 b2 b3 b4 b5 b6 b7 :: packBytesSpec rest
  | _ => []

/-- The sample value on which a given parser state advances: states
`INIT_PULL_DOWN`, `DATA_FIRST_PULL_DOWN` and `DATA_PULL_DOWN` advance on a
0 sample, states `INIT_PULL_UP` and `DATA_PULL_UP` on a 1 sample. -/
def advanceSample (state : Nat) : Nat :=
  if state = STATE_INIT_PULL_UP ∨ state = STATE_DATA_PULL_UP then 1 else 0

/-- The successor of a parser state in the chain
`INIT_PULL_DOWN → INIT_PULL_UP → DATA_FIRST_PULL_DOWN → DATA_PULL_UP ⇄ DATA_PULL_DOWN`. -/
def nextState (state : Nat) : Nat :=
  if state = STATE_DATA_PULL_DOWN then STATE_DATA_PULL_UP else state + 1

/-- `validateStage` raises only `DHT11CRCError`, never `DHT11MissingDataError`. -/
theorem validateStage_ne_missingData (the_bytes : List Nat) :
    validateStage the_bytes ≠ Except.error DHTError.missingData := by
  unfold validateStage
  dsimp only
  split <;> simp

/-- Running the parser on one more sample is one more step. -/
theorem parseRun_append (s : ParseState) (data : List Nat) (c : Nat) :
    parseRun s (data ++ [c]) = parseStep (parseRun s data) c := by
  simp [parseRun, List.foldl_append]

/-- One parser step either leaves the output untouched or appends the
incremented duration counter. -/
theorem parseStep_lengths (s : ParseState) (c : Nat) :
    (parseStep s c).lengths = s.lengths ∨
      (parseStep s c).lengths = s.lengths ++ [s.current_length + 1] := by
  unfold parseStep
  split_ifs <;> simp

/-- Positivity of output entries is preserved along a parser run. -/
theorem parseRun_lengths_ge_one (data : List Nat) :
    ∀ s : ParseState, (∀ y ∈ s.lengths, 1 ≤ y) → ∀ y ∈ (parseRun s data).lengths, 1 ≤ y := by
  induction data with
  | nil => intro s hs; exact hs
  | cons c rest ih =>
      intro s hs
      have hstep : ∀ y ∈ (parseStep s c).lengths, 1 ≤ y := by
        rcases parseStep_lengths s c with h | h
        · rw [h]; exact hs
        · rw [h]
          intro y hy
          rcases List.mem_append.mp hy with hy | hy
          · exact hs y hy
          · simp only [List.mem_singleton] at hy
            omega
      exact ih (parseStep s c) hstep

/-- A sample different from the state's transition sample leaves the state
unchanged. -/
theorem parseStep_state_no_match (s : ParseState) (c : Nat) (h1 : 1 ≤ s.state)
    (h5 : s.state ≤ 5) (hc : c ≠ advanceSample s.state) :
    (parseStep s c).state = s.state := by
  obtain ⟨st, len, L⟩ := s
  simp only [advanceSample, STATE_INIT_PULL_UP, STATE_DATA_PULL_UP] at hc
  simp only at h1 h5 ⊢
  interval_cases st <;>
    simp_all [parseStep, STATE_INIT_PULL_DOWN, STATE_INIT_PULL_UP,
      STATE_DATA_FIRST_PULL_DOWN, STATE_DATA_PULL_UP, STATE_DATA_PULL_DOWN]

/-- The state's transition sample advances the state to its successor. -/
theorem parseStep_state_match (s : ParseState) (h1 : 1 ≤ s.state) (h5 : s.state ≤ 5) :
    (parseStep s (advanceSample s.state)).state = nextState s.state := by
  obtain ⟨st, len, L⟩ := s
  simp only at h1 h5 ⊢
  interval_cases st <;> rfl

/-- Parser states stay inside the code range 1..5. -/
theorem parseStep_state_bounds (s : ParseState) (c : Nat) (h1 : 1 ≤ s.state)
    (h5 : s.state ≤ 5) : 1 ≤ (parseStep s c).state ∧ (parseStep s c).state ≤ 5 := by
  obtain ⟨st, len, L⟩ := s
  simp only at h1 h5 ⊢
  interval_cases st <;> unfold parseStep <;> split_ifs <;>
    simp_all [STATE_INIT_PULL_DOWN, STATE_INIT_PULL_UP,
      STATE_DATA_FIRST_PULL_DOWN, STATE_DATA_PULL_UP, STATE_DATA_PULL_DOWN]

/-- Parser states stay inside the code range 1..5 along a whole run. -/
theorem parseRun_state_bounds (data : List Nat) :
    ∀ s : ParseState, 1 ≤ s.state → s.state ≤ 5 →
      1 ≤ (parseRun s data).state ∧ (parseRun s data).state ≤ 5 := by
  induction data with
  | nil => intro s h1 h5; exact ⟨h1, h5⟩
  | cons c rest ih =>
      intro s h1 h5
      have hstep := parseStep_state_bounds s c h1 h5
      exact ih (parseStep s c) hstep.1 hstep.2

/-- One parser step never moves the state backward, except for the
`DATA_PULL_DOWN → DATA_PULL_UP` return, and the two data states are closed
under stepping. -/
theorem parseStep_state_progress (s : ParseState) (c : Nat) (h1 : 1 ≤ s.state)
    (h5 : s.state ≤ 5) :
    (s.state ≤ (parseStep s c).state ∨
      (s.state = STATE_DATA_PULL_DOWN ∧ (parseStep s c).state = STATE_DATA_PULL_UP)) ∧
      (STATE_DATA_PULL_UP ≤ s.state →
        STATE_DATA_PULL_UP ≤ (parseStep s c).state ∧
          (parseStep s c).state ≤ STATE_DATA_PULL_DOWN) := by
  obtain ⟨st, len, L⟩ := s
  simp only at h1 h5 ⊢
  interval_cases st <;> unfold parseStep <;> split_ifs <;>
    simp_all [STATE_INIT_PULL_DOWN, STATE_INIT_PULL_UP,
      STATE_DATA_FIRST_PULL_DOWN, STATE_DATA_PULL_UP, STATE_DATA_PULL_DOWN]

/-- Samples that do not match the transition condition leave the state
unchanged over a whole run. -/
theorem parseRun_state_no_match (cs : List Nat) :
    ∀ s : ParseState, 1 ≤ s.state → s.state ≤ 5 →
      (∀ c ∈ cs, c ≠ advanceSample s.state) → (parseRun s cs).state = s.state := by
  induction cs with
  | nil => intro s _ _ _; rfl
  | cons c rest ih =>
      intro s h1 h5 hcs
      have hc := hcs c (List.mem_cons_self c rest)
      have hstep := parseStep_state_no_match s c h1 h5 hc
      have hrest := ih (parseStep s c) (by rw [hstep]; exact h1) (by rw [hstep]; exact h5)
        (by intro x hx; rw [hstep]; exact hcs x (List.mem_cons_of_mem c hx))
      calc (parseRun s (c :: rest)).state = (parseRun (parseStep s c) rest).state := rfl
        _ = (parseStep s c).state := hrest
        _ = s.state := hstep

/-- The byte masks of `__calculate_checksum` are the identity on values that
fit in a byte, so on in-range bytes the function returns the plain,
untruncated sum of the first four bytes. -/
theorem calculate_checksum_eq_sum (b0 b1 b2 b3 b4 : Nat) (h0 : b0 ≤ 255) (h1 : b1 ≤ 255)
    (h2 : b2 ≤ 255) (h3 : b3 ≤ 255) :
    calculate_checksum [b0, b1, b2, b3, b4] = b0 + b1 + b2 + b3 := by
  unfold calculate_checksum
  simp only [List.getElem!_cons_zero, List.getElem!_cons_succ]
  rw [Nat.and_pow_two_sub_one_eq_mod b0 8, Nat.and_pow_two_sub_one_eq_mod b1 8,
    Nat.and_pow_two_sub_one_eq_mod b2 8, Nat.and_pow_two_sub_one_eq_mod b3 8]
  omega

/-- C3: `read` raises `DHT11MissingDataError` exactly when the pulse parser
returns a list whose length is not 40; with exactly 40 entries the decode
path continues past that check and can only succeed or raise
`DHT11CRCError`. -/
theorem read_missing_data_iff (data : List Nat) :
    readDecode data = Except.error DHTError.missingData ↔
      (parse_data_pull_up_lengths data).length ≠ 40 := by
  by_cases h : (parse_data_pull_up_lengths data).length = 40
  · simp [readDecode, h, validateStage_ne_missingData]
  · simp [readDecode, h]

/-- C6: the checksum comparison of `read` is exact, non-modular equality:
on bytes in range 0..255 the validation succeeds exactly when the fifth
byte equals the untruncated sum of the first four, and whenever that sum
reaches 256 the validation necessarily raises `DHT11CRCError`. -/
theorem checksum_exact_equality (b0 b1 b2 b3 b4 : Nat) (h0 : b0 ≤ 255) (h1 : b1 ≤ 255)
    (h2 : b2 ≤ 255) (h3 : b3 ≤ 255) (h4 : b4 ≤ 255) :
    ((validateStage [b0, b1, b2, b3, b4]).isOk ↔ b4 = b0 + b1 + b2 + b3) ∧
      (256 ≤ b0 + b1 + b2 + b3 →
        validateStage [b0, b1, b2, b3, b4] = Except.error DHTError.crc) := by
  have hcs := calculate_checksum_eq_sum b0 b1 b2 b3 b4 h0 h1 h2 h3
  have hv : validateStage [b0, b1, b2, b3, b4] =
      if b4 = b0 + b1 + b2 + b3 then
        Except.ok ⟨(b2 : ℚ) + (b3 : ℚ) / 10, (b0 : ℚ) + (b1 : ℚ) / 10, b0 + b1 + b2 + b3⟩
      else Except.error DHTError.crc := by
    unfold validateStage
    dsimp only
    simp only [List.getElem!_cons_zero, List.getElem!_cons_succ, hcs, ne_eq, ite_not]
  rw [hv]
  by_cases hb : b4 = b0 + b1 + b2 + b3
  · rw [if_pos hb]
    exact ⟨⟨fun _ => hb, fun _ => rfl⟩, fun hsum => by omega⟩
  · rw [if_neg hb]
    refine ⟨⟨fun hok => ?_, fun heq => absurd heq hb⟩, fun _ => rfl⟩
    simp [Except.isOk, Except.toBool] at hok

/-- Witness for C6 at the spec's example bytes `[60, 0, 25, 0, 85]`. -/
theorem checksum_exact_equality_witness :
    ((validateStage [60, 0, 25, 0, 85]).isOk ↔ (85 : Nat) = 60 + 0 + 25 + 0) ∧
      (256 ≤ 60 + 0 + 25 + 0 →
        validateStage [60, 0, 25, 0, 85] = Except.error DHTError.crc) :=
  checksum_exact_equality 60 0 25 0 85 (by decide) (by decide) (by decide) (by decide)
    (by decide)

/-- C1 as stated is false: the bytes `[255, 1, 0, 0, 0]` satisfy
`b4 = (b0 + b1 + b2 + b3) & 0xFF`, yet the checksum validation of `read`
raises `DHT11CRCError`, because the code compares against the untruncated
sum 256. -/
theorem checksum_roundtrip_counterexample :
    (0 : Nat) = (255 + 1 + 0 + 0) &&& 0xff ∧
      validateStage [255, 1, 0, 0, 0] = Except.error DHTError.crc := by
  constructor
  · decide
  · rfl

/-- C1 amended: the round trip holds for every byte quadruple whose sum does
not overflow a byte; then `b4 = (b0+b1+b2+b3) & 0xFF` is the plain sum, the
validation succeeds and returns `temperature = b2 + b3/10`,
`humidity = b0 + b1/10` and the checksum value. -/
theorem checksum_roundtrip_amended (b0 b1 b2 b3 : Nat) (h : b0 + b1 + b2 + b3 ≤ 255) :
    validateStage [b0, b1, b2, b3, (b0 + b1 + b2 + b3) &&& 0xff] =
      Except.ok ⟨(b2 : ℚ) + (b3 : ℚ) / 10, (b0 : ℚ) + (b1 : ℚ) / 10,
        b0 + b1 + b2 + b3⟩ := by
  have hmask : (b0 + b1 + b2 + b3) &&& 0xff = b0 + b1 + b2 + b3 := by
    have hx : (b0 + b1 + b2 + b3) &&& 0xff = (b0 + b1 + b2 + b3) % 256 :=
      Nat.and_pow_two_sub_one_eq_mod (b0 + b1 + b2 + b3) 8
    omega
  rw [hmask]
  have hcs := calculate_checksum_eq_sum b0 b1 b2 b3 (b0 + b1 + b2 + b3)
    (by omega) (by omega) (by omega) (by omega)
  simp [validateStage, hcs]

/-- Witness for the amended C1 at the spec's example bytes `[60, 0, 25, 0]`. -/
theorem checksum_roundtrip_amended_witness :
    validateStage [60, 0, 25, 0, (60 + 0 + 25 + 0) &&& 0xff] =
      Except.ok ⟨(25 : ℚ) + (0 : ℚ) / 10, (60 : ℚ) + (0 : ℚ) / 10, 60 + 0 + 25 + 0⟩ :=
  checksum_roundtrip_amended 60 0 25 0 (by decide)

/-- C10: every entry the pulse parser emits is at least 1: the duration
counter is incremented on the terminating sample before being appended, so
an appended length of 0 is impossible. -/
theorem pulse_lengths_positive (data : List Nat) (x : Nat)
    (hx : x ∈ parse_data_pull_up_lengths data) : 1 ≤ x :=
  parseRun_lengths_ge_one data initParseState (by simp [initParseState]) x hx

/-- Witness for C10 on the sample stream `[0, 1, 0, 1, 0]`, whose parse
output is `[1]`. -/
theorem pulse_lengths_positive_witness :
    1 ∈ parse_data_pull_up_lengths [0, 1, 0, 1, 0] ∧ 1 ≤ 1 :=
  ⟨by decide, pulse_lengths_positive [0, 1, 0, 1, 0] 1 (by decide)⟩

/-- C9: in every parser state, any number of samples that do not match the
state's transition condition leaves the state unchanged, and the first
matching sample then advances the state on that very sample. -/
theorem state_machine_advance (s : ParseState) (h1 : 1 ≤ s.state) (h5 : s.state ≤ 5)
    (cs : List Nat) (hcs : ∀ c ∈ cs, c ≠ advanceSample s.state) :
    (parseRun s cs).state = s.state ∧
      (parseRun s (cs ++ [advanceSample s.state])).state = nextState s.state := by
  have hrun := parseRun_state_no_match cs s h1 h5 hcs
  refine ⟨hrun, ?_⟩
  rw [parseRun_append]
  rw [show advanceSample s.state = advanceSample (parseRun s cs).state by rw [hrun]]
  rw [parseStep_state_match (parseRun s cs) (hrun ▸ h1) (hrun ▸ h5), hrun]

/-- Witness for C9: from the initial state, the non-matching samples
`[1, 7]` leave the state at `INIT_PULL_DOWN`, and the matching sample 0
then advances it to `INIT_PULL_UP`. -/
theorem state_machine_advance_witness :
    (parseRun initParseState [1, 7]).state = initParseState.state ∧
      (parseRun initParseState ([1, 7] ++ [advanceSample initParseState.state])).state =
        nextState initParseState.state :=
  state_machine_advance initParseState (by decide) (by decide) [1, 7] (by decide)

/-- C8: along any parser run the state never moves backward in the order
`INIT_PULL_DOWN, INIT_PULL_UP, DATA_FIRST_PULL_DOWN, DATA_PULL_UP,
DATA_PULL_DOWN`, with the single exception of the
`DATA_PULL_DOWN → DATA_PULL_UP` return, and once a data state is reached
the machine stays in the two data states; `data` ranges over all reachable
prefixes and `c` over the next sample, so every transition of every run is
covered. -/
theorem state_machine_no_regress (data : List Nat) (c : Nat) :
    ((parseRun initParseState data).state ≤ (parseRun initParseState (data ++ [c])).state ∨
      ((parseRun initParseState data).state = STATE_DATA_PULL_DOWN ∧
        (parseRun initParseState (data ++ [c])).state = STATE_DATA_PULL_UP)) ∧
      (STATE_DATA_PULL_UP ≤ (parseRun initParseState data).state →
        STATE_DATA_PULL_UP ≤ (parseRun initParseState (data ++ [c])).state ∧
          (parseRun initParseState (data ++ [c])).state ≤ STATE_DATA_PULL_DOWN) := by
  have hb := parseRun_state_bounds data initParseState (by decide) (by decide)
  rw [parseRun_append]
  exact parseStep_state_progress (parseRun initParseState data) c hb.1 hb.2

/-- Folding a block of 1 samples in state `DATA_PULL_DOWN` keeps the state
and adds the block length to the duration counter. -/
theorem parseRun_pulldown_ones (m : Nat) :
    ∀ (len : Nat) (L : List Nat),
      parseRun ⟨STATE_DATA_PULL_DOWN, len, L⟩ (List.replicate m 1) =
        ⟨STATE_DATA_PULL_DOWN, len + m, L⟩ := by
  induction m with
  | zero => intro len L; rfl
  | succ n ih =>
      intro len L
      have hrep : List.replicate (n + 1) 1 = 1 :: List.replicate n 1 := rfl
      rw [hrep]
      have hstep : parseRun ⟨STATE_DATA_PULL_DOWN, len, L⟩ (1 :: List.replicate n 1) =
          parseRun ⟨STATE_DATA_PULL_DOWN, len + 1, L⟩ (List.replicate n 1) := rfl
      rw [hstep, ih (len + 1) L]
      congr 1
      omega

/-- C4 as stated is false: in the stream `[0, 1, 0, 1, 1, 1, 0, 0]` the
data phase holds a maximal run of three 1 samples followed by two 0
samples; the parser appends 3 (the length of the high run), not 2 (the
number of 0 samples of the low interval) as the claim predicts. -/
theorem data_pull_up_counterexample :
    parse_data_pull_up_lengths [0, 1, 0, 1, 1, 1, 0, 0] = [3] ∧
      parse_data_pull_up_lengths [0, 1, 0, 1, 1, 1, 0, 0] ≠ [2] := by
  constructor <;> decide

/-- C4 amended: in state `DATA_PULL_UP` a 1 sample resets the duration
counter to zero and moves to `DATA_PULL_DOWN`, and for a maximal run of
`k ≥ 1` consecutive 1 samples followed by a 0 sample the appended value is
`k`, the sample count of the pull-up (line-high) interval: the terminating
0 sample's increment makes up for the reset of the first 1 sample. -/
theorem data_pull_up_counts_high_interval (s : ParseState)
    (hs : s.state = STATE_DATA_PULL_UP) (k : Nat) (hk : 1 ≤ k) :
    (parseStep s 1).state = STATE_DATA_PULL_DOWN ∧
      (parseStep s 1).current_length = 0 ∧
      parseRun s (List.replicate k 1 ++ [0]) =
        ⟨STATE_DATA_PULL_UP, k, s.lengths ++ [k]⟩ := by
  obtain ⟨st, len, L⟩ := s
  simp only at hs ⊢
  subst hs
  refine ⟨rfl, rfl, ?_⟩
  cases k with
  | zero => exact absurd hk (by omega)
  | succ m => ?_
  have hrep : List.replicate (m + 1) 1 ++ [0] = 1 :: (List.replicate m 1 ++ [0]) := rfl
  rw [hrep]
  have hfirst : parseRun ⟨STATE_DATA_PULL_UP, len, L⟩ (1 :: (List.replicate m 1 ++ [0])) =
      parseRun ⟨STATE_DATA_PULL_DOWN, 0, L⟩ (List.replicate m 1 ++ [0]) := rfl
  rw [hfirst, parseRun_append, parseRun_pulldown_ones m 0 L]
  show (⟨STATE_DATA_PULL_UP, 0 + m + 1, L ++ [0 + m + 1]⟩ : ParseState) = _
  simp only [Nat.zero_add]

/-- Witness for the amended C4 with a run of three 1 samples from state
`DATA_PULL_UP` with a dirty counter. -/
theorem data_pull_up_counts_high_interval_witness :
    (parseStep ⟨STATE_DATA_PULL_UP, 7, []⟩ 1).state = STATE_DATA_PULL_DOWN ∧
      (parseStep ⟨STATE_DATA_PULL_UP, 7, []⟩ 1).current_length = 0 ∧
      parseRun ⟨STATE_DATA_PULL_UP, 7, []⟩ (List.replicate 3 1 ++ [0]) =
        ⟨STATE_DATA_PULL_UP, 3, [] ++ [3]⟩ :=
  data_pull_up_counts_high_interval ⟨STATE_DATA_PULL_UP, 7, []⟩ rfl 3 (by decide)

/-- The paired min/max fold of `__calculate_bits` splits into a `min` fold
and a `max` fold. -/
theorem shortest_longest_eq_foldl (L : List Nat) :
    shortest_longest L = (L.foldl min 1000, L.foldl max 0) := by
  have h : ∀ (M : List Nat) (a b : Nat),
      M.foldl (fun p length => (if length < p.1 then length else p.1,
        if p.2 < length then length else p.2)) (a, b) = (M.foldl min a, M.foldl max b) := by
    intro M
    induction M with
    | nil => intro a b; rfl
    | cons x xs ih =>
        intro a b
        simp only [List.foldl_cons]
        have h1 : (if x < a then x else a) = min a x := by split <;> omega
        have h2 : (if b < x then x else b) = max b x := by split <;> omega
        rw [h1, h2]
        exact ih (min a x) (max b x)
  exact h L 1000 0

/-- Pulling the start value out of a `min` fold. -/
theorem foldl_min_init (xs : List Nat) :
    ∀ a b : Nat, xs.foldl min (min a b) = min a (xs.foldl min b) := by
  induction xs with
  | nil => intro a b; rfl
  | cons x t ih =>
      intro a b
      simp only [List.foldl_cons]
      rw [min_assoc]
      exact ih a (min b x)

/-- Pulling the start value out of a `max` fold. -/
theorem foldl_max_init (xs : List Nat) :
    ∀ a b : Nat, xs.foldl max (max a b) = max a (xs.foldl max b) := by
  induction xs with
  | nil => intro a b; rfl
  | cons x t ih =>
      intro a b
      simp only [List.foldl_cons]
      rw [max_assoc]
      exact ih a (max b x)

/-- On a nonempty list whose minimum does not exceed 1000, the running
minimum of `__calculate_bits`, started at 1000, is the true minimum. -/
theorem shortest_eq_listMin (L : List Nat) (hne : L ≠ []) (h1000 : listMin L ≤ 1000) :
    (shortest_longest L).1 = listMin L := by
  obtain ⟨x, xs, rfl⟩ := List.exists_cons_of_ne_nil hne
  rw [shortest_longest_eq_foldl]
  show (x :: xs).foldl min 1000 = listMin (x :: xs)
  simp only [List.foldl_cons, listMin] at h1000 ⊢
  rw [foldl_min_init xs 1000 x]
  omega

/-- On a nonempty list the running maximum of `__calculate_bits`, started
at 0, is the true maximum. -/
theorem longest_eq_listMax (L : List Nat) (hne : L ≠ []) :
    (shortest_longest L).2 = listMax L := by
  obtain ⟨x, xs, rfl⟩ := List.exists_cons_of_ne_nil hne
  rw [shortest_longest_eq_foldl]
  show (x :: xs).foldl max 0 = listMax (x :: xs)
  simp only [List.foldl_cons, listMax]
  rw [foldl_max_init xs 0 x]
  omega

/-- C2 amended: provided some pulse length is at most 1000 (the decoder's
running minimum starts at 1000), the bit decoder computes
`shortest = min(lengths)`, `longest = max(lengths)`,
`halfway = shortest + (longest - shortest)/2`, and returns exactly 40
booleans whose i-th entry is `true` iff `lengths[i]` strictly exceeds
`halfway`. -/
theorem bit_decoder_midpoint (L : List Nat) (h40 : L.length = 40)
    (h1000 : listMin L ≤ 1000) :
    (calculate_bits L).length = 40 ∧
      (shortest_longest L).1 = listMin L ∧
      (shortest_longest L).2 = listMax L ∧
      halfway L = halfwaySpec L ∧
      ∀ i, i < 40 → ((calculate_bits L)[i]! = true ↔ halfwaySpec L < ((L[i]! : Nat) : ℚ)) := by
  have hne : L ≠ [] := by rintro rfl; simp at h40
  have hs := shortest_eq_listMin L hne h1000
  have hl := longest_eq_listMax L hne
  have hh : halfway L = halfwaySpec L := by
    unfold halfway halfwaySpec
    rw [hs, hl]
  refine ⟨by simp [calculate_bits, h40], hs, hl, hh, ?_⟩
  intro i hi
  have hi' : i < L.length := by omega
  have hmap : (calculate_bits L)[i]! =
      decide (halfway L < ((L[i]! : Nat) : ℚ)) := by
    unfold calculate_bits
    rw [getElem!_pos (L.map (fun (length : Nat) => decide (halfway L < (length : ℚ)))) i
      (by simpa using hi'), getElem!_pos L i hi']
    simp
  rw [hmap, hh, decide_eq_true_eq]

/-- Witness for the amended C2 on 40 pulse lengths all equal to 10. -/
theorem bit_decoder_midpoint_witness :
    ((List.replicate 40 10).length = 40 ∧ listMin (List.replicate 40 10) ≤ 1000) ∧
      ((calculate_bits (List.replicate 40 10)).length = 40 ∧
        (shortest_longest (List.replicate 40 10)).1 = listMin (List.replicate 40 10) ∧
        (shortest_longest (List.replicate 40 10)).2 = listMax (List.replicate 40 10) ∧
        halfway (List.replicate 40 10) = halfwaySpec (List.replicate 40 10) ∧
        ∀ i, i < 40 → ((calculate_bits (List.replicate 40 10))[i]! = true ↔
          halfwaySpec (List.replicate 40 10) < (((List.replicate 40 10)[i]! : Nat) : ℚ))) :=
  ⟨⟨by decide, by decide⟩, bit_decoder_midpoint (List.replicate 40 10) (by decide) (by decide)⟩

/-- C2 as stated is false: on 40 pulse lengths all equal to 2000 the
decoder's bit 0 is `true`, although no length strictly exceeds the claim's
halfway value `min + (max - min)/2 = 2000`; the decoder starts its running
minimum at 1000, so for pulse lengths all above 1000 its `shortest` is not
`min(lengths)` and its threshold is 1000 + (2000 - 1000)/2 = 1500. -/
theorem bit_decoder_counterexample :
    (calculate_bits (List.replicate 40 2000))[0]! = true ∧
      ¬ halfwaySpec (List.replicate 40 2000) < (((List.replicate 40 2000)[0]! : Nat) : ℚ) := by
  have hsl : shortest_longest (List.replicate 40 2000) = (1000, 2000) := by decide
  have hh : halfway (List.replicate 40 2000) = 1500 := by
    unfold halfway
    rw [hsl]
    norm_num
  have h0 : (List.replicate 40 2000)[0]! = (2000 : Nat) := by decide
  constructor
  · have hb : decide (halfway (List.replicate 40 2000) < ((2000 : Nat) : ℚ)) = true := by
      rw [hh, decide_eq_true_eq]
      push_cast
      norm_num
    calc (calculate_bits (List.replicate 40 2000))[0]!
        = (List.replicate 40
            (decide (halfway (List.replicate 40 2000) < ((2000 : Nat) : ℚ))))[0]! := by
          unfold calculate_bits
          rw [List.map_replicate]
      _ = decide (halfway (List.replicate 40 2000) < ((2000 : Nat) : ℚ)) := rfl
      _ = true := hb
  · have hmin : listMin (List.replicate 40 2000) = 2000 := by decide
    have hmax : listMax (List.replicate 40 2000) = 2000 := by decide
    rw [h0]
    unfold halfwaySpec
    rw [hmin, hmax]
    norm_num

/-- C7: a pulse length exactly equal to the computed halfway threshold
decodes as `false` (the comparison is strict, with no tie-break), and on 40
pulse lengths all equal to 10 the threshold is 10 and all 40 bits decode as
`false`. -/
theorem halfway_tie_decodes_false :
    (∀ (L : List Nat) (i : Nat), i < L.length → ((L[i]! : Nat) : ℚ) = halfway L →
      (calculate_bits L)[i]! = false) ∧
      calculate_bits (List.replicate 40 10) = List.replicate 40 false := by
  constructor
  · intro L i hi heq
    have hmap : (calculate_bits L)[i]! =
        decide (halfway L < ((L[i]! : Nat) : ℚ)) := by
      unfold calculate_bits
      rw [getElem!_pos (L.map (fun (length : Nat) => decide (halfway L < (length : ℚ)))) i
        (by simpa using hi), getElem!_pos L i hi]
      simp
    rw [hmap, heq]
    simp
  · have hsl : shortest_longest (List.replicate 40 10) = (10, 10) := by decide
    have hh : halfway (List.replicate 40 10) = 10 := by
      unfold halfway
      rw [hsl]
      norm_num
    unfold calculate_bits
    rw [List.map_replicate]
    congr 1
    rw [hh, decide_eq_false_iff_not]
    push_cast
    norm_num

/-- Witness for C7: bit 0 of the all-10 pulse sequence decodes as `false`,
its length 10 being exactly the halfway threshold. -/
theorem halfway_tie_decodes_false_witness :
    (calculate_bits (List.replicate 40 10))[0]! = false :=
  halfway_tie_decodes_false.1 (List.replicate 40 10) 0 (by simp)
    (by
      have hsl : shortest_longest (List.replicate 40 10) = (10, 10) := by decide
      have h0 : (List.replicate 40 10)[0]! = (10 : Nat) := by decide
      rw [h0]
      unfold halfway
      rw [hsl]
      norm_num)

/-- A bit contributes at most 1 to a packed byte. -/
theorem ite_bit_le_one (b : Bool) : (if b then 1 else 0 : Nat) ≤ 1 := by
  cases b <;> decide

/-- Eight MSB-first shift-or steps pack into at most 255. -/
theorem pack8_le_255 (b0 b1 b2 b3 b4 b5 b6 b7 : Bool) :
    pack8 b0 b1 b2 b3 b4 b5 b6 b7 ≤ 255 := by
  have h0 := ite_bit_le_one b0
  have h1 := ite_bit_le_one b1
  have h2 := ite_bit_le_one b2
  have h3 := ite_bit_le_one b3
  have h4 := ite_bit_le_one b4
  have h5 := ite_bit_le_one b5
  have h6 := ite_bit_le_one b6
  have h7 := ite_bit_le_one b7
  unfold pack8
  omega

/-- Skipping eight cons cells shifts a bang index by 8. -/
theorem getElem!_cons8 {α : Type} [Inhabited α] (b0 b1 b2 b3 b4 b5 b6 b7 : α)
    (rest : List α) (m : Nat) :
    (b0 :: b1 :: b2 :: b3 :: b4 :: b5 :: b6 :: b7 :: rest)[m + 8]! = rest[m]! := by
  have h : m + 8 = (((((((m + 1) + 1) + 1) + 1) + 1) + 1) + 1) + 1 := by omega
  rw [h]
  simp [List.getElem!_cons_succ]

/-- A list of length `8 * (n + 1)` starts with eight explicit bits. -/
theorem exists_cons8 (bits : List Bool) (n : Nat) (h : bits.length = 8 * (n + 1)) :
    ∃ b0 b1 b2 b3 b4 b5 b6 b7 rest,
      bits = b0 :: b1 :: b2 :: b3 :: b4 :: b5 :: b6 :: b7 :: rest ∧
        rest.length = 8 * n := by
  rcases bits with _ | ⟨b0, _ | ⟨b1, _ | ⟨b2, _ | ⟨b3, _ | ⟨b4, _ | ⟨b5, _ | ⟨b6, _ | ⟨b7, rest⟩⟩⟩⟩⟩⟩⟩⟩ <;>
    simp only [List.length_nil, List.length_cons] at h
  · omega
  · omega
  · omega
  · omega
  · omega
  · omega
  · omega
  · omega
  · exact ⟨b0, b1, b2, b3, b4, b5, b6, b7, rest, rfl, by omega⟩

/-- Eight loop iterations of `__bits_to_bytes` starting at a block boundary
flush exactly one MSB-first packed byte and return to a block boundary. -/
theorem bitsToBytesGo_chunk (i : Nat) (h : i % 8 = 0) (b0 b1 b2 b3 b4 b5 b6 b7 : Bool)
    (rest : List Bool) (acc : List Nat) :
    bitsToBytesGo i 0 acc (b0 :: b1 :: b2 :: b3 :: b4 :: b5 :: b6 :: b7 :: rest) =
      bitsToBytesGo (i + 8) 0 (acc ++ [pack8 b0 b1 b2 b3 b4 b5 b6 b7]) rest := by
  simp only [bitsToBytesGo]
  rw [if_neg (show ¬ (i + 1) % 8 = 0 by omega),
    if_neg (show ¬ (i + 1 + 1) % 8 = 0 by omega),
    if_neg (show ¬ (i + 1 + 1 + 1) % 8 = 0 by omega),
    if_neg (show ¬ (i + 1 + 1 + 1 + 1) % 8 = 0 by omega),
    if_neg (show ¬ (i + 1 + 1 + 1 + 1 + 1) % 8 = 0 by omega),
    if_neg (show ¬ (i + 1 + 1 + 1 + 1 + 1 + 1) % 8 = 0 by omega),
    if_neg (show ¬ (i + 1 + 1 + 1 + 1 + 1 + 1 + 1) % 8 = 0 by omega),
    if_pos (show (i + 1 + 1 + 1 + 1 + 1 + 1 + 1 + 1) % 8 = 0 by omega)]
  have h8 : i + 1 + 1 + 1 + 1 + 1 + 1 + 1 + 1 = i + 8 := by omega
  rw [h8]
  congr 2
  simp only [pack8]
  ring_nf

/-- On inputs whose length is a multiple of 8, the loop of
`__bits_to_bytes` produces exactly the specification-side chunked
packing, appended to whatever was already flushed. -/
theorem bitsToBytesGo_spec (n : Nat) :
    ∀ bits : List Bool, bits.length = 8 * n → ∀ i : Nat, i % 8 = 0 → ∀ acc : List Nat,
      bitsToBytesGo i 0 acc bits = acc ++ packBytesSpec bits := by
  induction n with
  | zero =>
      intro bits h i hi acc
      have hb : bits = [] := List.length_eq_zero.mp (by omega)
      subst hb
      simp [bitsToBytesGo, packBytesSpec]
  | succ m ih =>
      intro bits h i hi acc
      obtain ⟨b0, b1, b2, b3, b4, b5, b6, b7, rest, rfl, hrest⟩ := exists_cons8 bits m h
      rw [bitsToBytesGo_chunk i hi]
      rw [ih rest hrest (i + 8) (by omega) (acc ++ [pack8 b0 b1 b2 b3 b4 b5 b6 b7])]
      rw [show packBytesSpec (b0 :: b1 :: b2 :: b3 :: b4 :: b5 :: b6 :: b7 :: rest) =
        pack8 b0 b1 b2 b3 b4 b5 b6 b7 :: packBytesSpec rest from rfl]
      simp

/-- The chunked packing of `8 * n` bits yields `n` bytes, each within
0..255 and equal to the MSB-first weighted sum of its 8 bits. -/
theorem packBytesSpec_spec (n : Nat) :
    ∀ bits : List Bool, bits.length = 8 * n →
      (packBytesSpec bits).length = n ∧
      ∀ j, j < n → (packBytesSpec bits)[j]! ≤ 255 ∧
        (packBytesSpec bits)[j]! =
          ∑ k ∈ Finset.range 8, 2 ^ (7 - k) * (if bits[8 * j + k]! then 1 else 0) := by
  induction n with
  | zero =>
      intro bits h
      have hb : bits = [] := List.length_eq_zero.mp (by omega)
      subst hb
      exact ⟨rfl, fun j hj => absurd hj (by omega)⟩
  | succ m ih =>
      intro bits h
      obtain ⟨b0, b1, b2, b3, b4, b5, b6, b7, rest, rfl, hrest⟩ := exists_cons8 bits m h
      have hcons : packBytesSpec (b0 :: b1 :: b2 :: b3 :: b4 :: b5 :: b6 :: b7 :: rest) =
          pack8 b0 b1 b2 b3 b4 b5 b6 b7 :: packBytesSpec rest := rfl
      rw [hcons]
      refine ⟨by simp [(ih rest hrest).1], ?_⟩
      intro j hj
      cases j with
      | zero =>
          rw [List.getElem!_cons_zero]
          refine ⟨pack8_le_255 b0 b1 b2 b3 b4 b5 b6 b7, ?_⟩
          norm_num [Finset.sum_range_succ, pack8, List.getElem!_cons_zero,
            List.getElem!_cons_succ]
      | succ j' =>
          have hj' : j' < m := by omega
          obtain ⟨hle, heq⟩ := (ih rest hrest).2 j' hj'
          rw [List.getElem!_cons_succ]
          refine ⟨hle, ?_⟩
          rw [heq]
          apply Finset.sum_congr rfl
          intro k hk
          have he : (b0 :: b1 :: b2 :: b3 :: b4 :: b5 :: b6 :: b7 :: rest)[8 * (j' + 1) + k]! =
              rest[8 * j' + k]! := by
            have hidx : 8 * (j' + 1) + k = (8 * j' + k) + 8 := by ring
            rw [hidx, getElem!_cons8]
          rw [he]

/-- C5: on exactly 40 booleans `__bits_to_bytes` returns exactly 5
integers, each in 0..255, the j-th being the MSB-first packing
`∑ k < 8, 2^(7-k) * bit (8j+k)` of its block of 8 bits. -/
theorem byte_packer_msb_first (bits : List Bool) (h : bits.length = 40) :
    (bits_to_bytes bits).length = 5 ∧
      ∀ j, j < 5 → (bits_to_bytes bits)[j]! ≤ 255 ∧
        (bits_to_bytes bits)[j]! =
          ∑ k ∈ Finset.range 8, 2 ^ (7 - k) * (if bits[8 * j + k]! then 1 else 0) := by
  have h5 : bits.length = 8 * 5 := by omega
  have hb : bits_to_bytes bits = packBytesSpec bits := by
    unfold bits_to_bytes
    rw [bitsToBytesGo_spec 5 bits h5 0 rfl []]
    rfl
  rw [hb]
  exact packBytesSpec_spec 5 bits h5

/-- Witness for C5 on the all-ones bit list: 5 bytes, each 255. -/
theorem byte_packer_msb_first_witness :
    (List.replicate 40 true).length = 40 ∧
      ((bits_to_bytes (List.replicate 40 true)).length = 5 ∧
        ∀ j, j < 5 → (bits_to_bytes (List.replicate 40 true))[j]! ≤ 255 ∧
          (bits_to_bytes (List.replicate 40 true))[j]! =
            ∑ k ∈ Finset.range 8,
              2 ^ (7 - k) * (if (List.replicate 40 true)[8 * j + k]! then 1 else 0)) :=
  ⟨by decide, byte_packer_msb_first (List.replicate 40 true) (by decide)⟩

end DHT11
